import Mathlib

/-!
Verification of the lazr-discrepancy-agent aggregation core.

The repository's three router variants (database-backed, server-parsed CSV,
client-pre-aggregated) are embedded as pure Lean functions.  JavaScript
numbers are modelled as rationals, JS `Map` insertion-order semantics as
association lists, and the mutable module-level snapshot as explicit state
records threaded through the operations.
-/

namespace Lazr

/-- Severity tier of a customer's aggregate discrepancy. -/
inductive Severity where
  | green
  | yellow
  | red
deriving DecidableEq, Repr

/-- Per-order flag; `matched` stands for the source's "match" (a Lean keyword). -/
inductive Flag where
  | overcharge
  | undercharge
  | matched
deriving DecidableEq, Repr

/-- Canonical raw row shape shared by all three router variants
(`OrderRow` in discrepancyQuery.ts); every field is a string, as delivered
by the SQL driver or the CSV parser. -/
structure OrderRow where
  orderNumber : String
  orderStatus : String
  organizationName : String
  transportType : String
  serviceType : String
  carrierName : String
  originPickupDate : String
  originCountry : String
  destinationCountry : String
  lane : String
  sellingPriceCAD : String
  billedSellingPriceCAD : String
  marginCAD : String
  marginPct : String
deriving DecidableEq, Repr

/-- Value of a digit list read in base 10. -/
def digitsVal (ds : List Char) : ℕ :=
  ds.foldl (fun acc c => acc * 10 + (c.toNat - '0'.toNat)) 0

/-- Model of JS `parseFloat` on a character stream: optional sign, integer
digits, optional decimal point with fraction digits; trailing junk is
ignored; `none` when no digit was consumed (JS `NaN`). -/
def parseFloatQCore (cs : List Char) : Option ℚ :=
  let signed : ℚ × List Char :=
    match cs with
    | c :: r => if c = '-' then (-1, r) else if c = '+' then (1, r) else (1, cs)
    | [] => (1, cs)
  let ip := signed.2.takeWhile Char.isDigit
  let cs2 := signed.2.dropWhile Char.isDigit
  let fp : List Char :=
    match cs2 with
    | c :: r => if c = '.' then r.takeWhile Char.isDigit else []
    | [] => []
  if ip.isEmpty && fp.isEmpty then none
  else some (signed.1 * ((digitsVal ip : ℚ) + (digitsVal fp : ℚ) / (10 : ℚ) ^ fp.length))

/-- Model of the pattern `parseFloat(s) || 0` used throughout the source:
leading whitespace is skipped, a parse failure (NaN) and a zero result both
yield `0`. -/
def parseNum (s : String) : ℚ :=
  match parseFloatQCore (s.data.dropWhile Char.isWhitespace) with
  | none => 0
  | some q => q

/-- Model of `Math.round(x * 100) / 100` (JS `Math.round` is
`floor (x + 1/2)`). -/
def round2 (q : ℚ) : ℚ := (⌊q * 100 + 1 / 2⌋ : ℚ) / 100

/-- The severity ladder from `computeCustomerStats`. -/
def severityOf (q : ℚ) : Severity :=
  if |q| < 50 then .green
  else if |q| < 500 then .yellow
  else .red

/-- JS truthiness of an optional string input field: `undefined` and the
empty string are falsy. -/
def jsTruthy : Option String → Bool
  | none => false
  | some s => s ≠ ""

/-- Lexicographic comparison of character lists by codepoint. -/
def charsLt : List Char → List Char → Bool
  | [], [] => false
  | [], _ :: _ => true
  | _ :: _, [] => false
  | a :: as, b :: bs =>
    if a.toNat < b.toNat then true
    else if b.toNat < a.toNat then false
    else charsLt as bs

/-- Model of the JS `<` operator on strings: lexicographic by code unit
(identical to codepoint order on the ASCII dates this system compares). -/
def strLt (a b : String) : Bool := charsLt a.data b.data

/-- `a ≤ b` in the same order: not `b < a`. -/
def strLe (a b : String) : Bool := ! strLt b a

/-- Model of `s.substring(0, n)`: the first `n` characters. -/
def strTake (s : String) (n : ℕ) : String := ⟨s.data.take n⟩

/-- Customer key used by the aggregator: `row["Organization Name"] || "Unknown"`. -/
def customerOf (r : OrderRow) : String :=
  if r.organizationName = "" then "Unknown" else r.organizationName

/-- Accumulator record held in the aggregation `Map` before finalization
(discrepancyQuery.ts `computeCustomerStats`, map value type).  The source
field `matches` is a reserved Lean token, so it is spelled `matched` here. -/
structure CustomerAcc where
  customer : String
  orders : ℕ
  totalSelling : ℚ
  totalBilled : ℚ
  totalDiscrepancy : ℚ
  overcharges : ℕ
  undercharges : ℕ
  matched : ℕ
deriving DecidableEq, Repr

/-- Fresh map entry for a customer. -/
def emptyAcc (c : String) : CustomerAcc :=
  { customer := c
    orders := 0
    totalSelling := 0
    totalBilled := 0
    totalDiscrepancy := 0
    overcharges := 0
    undercharges := 0
    matched := 0 }

/-- One loop iteration of `computeCustomerStats`: accumulate a row into its
customer's entry. -/
def accRow (r : OrderRow) (s : CustomerAcc) : CustomerAcc :=
  let selling := parseNum r.sellingPriceCAD
  let billed := parseNum r.billedSellingPriceCAD
  let disc := billed - selling
  let s1 : CustomerAcc :=
    { s with
      orders := s.orders + 1
      totalSelling := s.totalSelling + selling
      totalBilled := s.totalBilled + billed
      totalDiscrepancy := s.totalDiscrepancy + disc }
  if disc > 1 / 100 then { s1 with overcharges := s1.overcharges + 1 }
  else if disc < -(1 / 100) then { s1 with undercharges := s1.undercharges + 1 }
  else { s1 with matched := s1.matched + 1 }

/-- The aggregation `Map` keyed by customer, modelled as an association
list in insertion order: the first entry with the row's key is updated,
a missing key is appended at the end. -/
def insertRow : List CustomerAcc → OrderRow → List CustomerAcc
  | [], r => [accRow r (emptyAcc (customerOf r))]
  | s :: rest, r =>
    if s.customer = customerOf r then accRow r s :: rest
    else s :: insertRow rest r

/-- Finalized per-customer aggregate (`CustomerStat`). -/
structure CustomerStat where
  customer : String
  orders : ℕ
  totalSelling : ℚ
  totalBilled : ℚ
  totalDiscrepancy : ℚ
  overcharges : ℕ
  undercharges : ℕ
  matched : ℕ
  discrepancyRate : ℚ
  severity : Severity
deriving DecidableEq, Repr

/-- Finalization step of `computeCustomerStats`.  In the source the object
literal spreads the accumulator `s` and then reads `s.totalDiscrepancy`
for the rate and the severity, so both are computed from the sum BEFORE
the 2-decimal rounding; only the returned `totalDiscrepancy` field is
rounded. -/
def finalize (s : CustomerAcc) : CustomerStat :=
  { customer := s.customer
    orders := s.orders
    totalSelling := s.totalSelling
    totalBilled := s.totalBilled
    totalDiscrepancy := round2 s.totalDiscrepancy
    overcharges := s.overcharges
    undercharges := s.undercharges
    matched := s.matched
    discrepancyRate :=
      if s.totalSelling > 0 then s.totalDiscrepancy / s.totalSelling * 100 else 0
    severity := severityOf s.totalDiscrepancy }

/-- Comparator of the final `.sort((a, b) => |b.td| - |a.td|)`: descending
absolute total discrepancy. -/
def statLE (a b : CustomerStat) : Prop :=
  |b.totalDiscrepancy| ≤ |a.totalDiscrepancy|

instance : DecidableRel statLE := fun a b =>
  inferInstanceAs (Decidable (|b.totalDiscrepancy| ≤ |a.totalDiscrepancy|))

/-- `computeCustomerStats` from discrepancyQuery.ts (identical code in both
module variants and, modulo the missing rounding, in routers/discrepancy.ts). -/
def computeCustomerStats (rows : List OrderRow) : List CustomerStat :=
  ((rows.foldl insertRow []).map finalize).insertionSort statLE

/-- Red-severity customer count of a stat list (`filter(c => c.severity ===
"red").length`). -/
def redCount (stats : List CustomerStat) : ℕ :=
  (stats.filter (fun c => decide (c.severity = Severity.red))).length

/-- Row predicate of `filterByDateRange`: an empty date passes; otherwise the
first 10 characters are compared lexicographically against whichever bounds
are truthy.  `date > to` in JS is `to < date`. -/
def datePasses (frOpt toOpt : Option String) (row : OrderRow) : Bool :=
  let d := row.originPickupDate
  if d = "" then true
  else
    let date := strTake d 10
    if jsTruthy frOpt ∧ strLt date (frOpt.getD "") then false
    else if jsTruthy toOpt ∧ strLt (toOpt.getD "") date then false
    else true

/-- `filterByDateRange` from discrepancyQuery.ts (both module variants hold
the identical helper): the unfiltered list is returned when neither bound is
truthy. -/
def filterByDateRange (rows : List OrderRow) (frOpt toOpt : Option String) : List OrderRow :=
  if ¬ jsTruthy frOpt ∧ ¬ jsTruthy toOpt then rows
  else rows.filter (datePasses frOpt toOpt)

/-- Flat order record produced by `getOrdersByCustomer` (and consumed by the
client-pre-aggregated variant). -/
structure OrderRecord where
  orderNumber : String
  date : String
  transportType : String
  serviceType : String
  carrier : String
  lane : String
  originCountry : String
  destCountry : String
  sellingPrice : ℚ
  billedPrice : ℚ
  discrepancy : ℚ
  margin : ℚ
  marginPct : ℚ
  flag : Flag
deriving DecidableEq, Repr

/-- The per-row mapping inside `getOrdersByCustomer`: prices parsed, the
`discrepancy` field rounded to 2 decimals, the `flag` computed from the
UNROUNDED difference. -/
def toOrderRecord (r : OrderRow) : OrderRecord :=
  let selling := parseNum r.sellingPriceCAD
  let billed := parseNum r.billedSellingPriceCAD
  let disc := billed - selling
  { orderNumber := r.orderNumber
    date := strTake r.originPickupDate 10
    transportType := r.transportType
    serviceType := r.serviceType
    carrier := r.carrierName
    lane := r.lane
    originCountry := r.originCountry
    destCountry := r.destinationCountry
    sellingPrice := selling
    billedPrice := billed
    discrepancy := round2 disc
    margin := parseNum r.marginCAD
    marginPct := parseNum r.marginPct
    flag :=
      if disc > 1 / 100 then .overcharge
      else if disc < -(1 / 100) then .undercharge
      else .matched }

/-- Comparator of `getOrdersByCustomer`'s final sort: descending absolute
per-order discrepancy. -/
def recLE (a b : OrderRecord) : Prop :=
  |b.discrepancy| ≤ |a.discrepancy|

instance : DecidableRel recLE := fun a b =>
  inferInstanceAs (Decidable (|b.discrepancy| ≤ |a.discrepancy|))

/-- Pure core of `getOrdersByCustomer` (discrepancyQuery.ts, both variants):
date filter, exact customer-name match, map to records, sort. -/
def ordersForCustomer (rows : List OrderRow) (customer : String)
    (frOpt toOpt : Option String) : List OrderRecord :=
  (((filterByDateRange rows frOpt toOpt).filter
      (fun r => decide (r.organizationName = customer))).map toOrderRecord).insertionSort recLE

/-- Client-side parsed flat order (`FlatOrder` in the client-pre-aggregated
router variant). -/
structure FlatOrder where
  orderNumber : String
  customer : String
  date : String
  transportType : String
  serviceType : String
  carrier : String
  lane : String
  originCountry : String
  destCountry : String
  sellingPrice : ℚ
  billedPrice : ℚ
  discrepancy : ℚ
  margin : ℚ
  marginPct : ℚ
  flag : Flag
deriving DecidableEq, Repr

/-- Customer key of `computeStatsFromOrders`: `o.customer || "Unknown"`. -/
def customerOfOrder (o : FlatOrder) : String :=
  if o.customer = "" then "Unknown" else o.customer

/-- Fresh map entry of `computeStatsFromOrders` (rate 0, severity green
until finalization). -/
def emptyStat (c : String) : CustomerStat :=
  { customer := c
    orders := 0
    totalSelling := 0
    totalBilled := 0
    totalDiscrepancy := 0
    overcharges := 0
    undercharges := 0
    matched := 0
    discrepancyRate := 0
    severity := .green }

/-- One loop iteration of `computeStatsFromOrders`: the already-derived
numeric fields of the flat order are accumulated and its `flag` is counted. -/
def accOrder (o : FlatOrder) (s : CustomerStat) : CustomerStat :=
  let s1 : CustomerStat :=
    { s with
      orders := s.orders + 1
      totalSelling := s.totalSelling + o.sellingPrice
      totalBilled := s.totalBilled + o.billedPrice
      totalDiscrepancy := s.totalDiscrepancy + o.discrepancy }
  match o.flag with
  | .overcharge => { s1 with overcharges := s1.overcharges + 1 }
  | .undercharge => { s1 with undercharges := s1.undercharges + 1 }
  | .matched => { s1 with matched := s1.matched + 1 }

/-- Insertion-ordered map of `computeStatsFromOrders`. -/
def insertOrder : List CustomerStat → FlatOrder → List CustomerStat
  | [], o => [accOrder o (emptyStat (customerOfOrder o))]
  | s :: rest, o =>
    if s.customer = customerOfOrder o then accOrder o s :: rest
    else s :: insertOrder rest o

/-- Finalization of `computeStatsFromOrders`; as in `finalize`, the rate and
severity read the accumulator's pre-rounding sum. -/
def finalizeStat (s : CustomerStat) : CustomerStat :=
  { s with
    totalDiscrepancy := round2 s.totalDiscrepancy
    discrepancyRate :=
      if s.totalSelling > 0 then s.totalDiscrepancy / s.totalSelling * 100 else 0
    severity := severityOf s.totalDiscrepancy }

/-- `computeStatsFromOrders` from the client-pre-aggregated router variant. -/
def computeStatsFromOrders (orders : List FlatOrder) : List CustomerStat :=
  ((orders.foldl insertOrder []).map finalizeStat).insertionSort statLE

/-- The inline date filter of the client-pre-aggregated variant's
getStats / getCustomers / getOrdersByCustomer / chat: it compares the FULL
`date` string (no `substring(0, 10)`) and has NO empty-date exemption. -/
def filterOrdersByDate (orders : List FlatOrder) (frOpt toOpt : Option String) : List FlatOrder :=
  orders.filter (fun o =>
    if jsTruthy frOpt ∧ strLt o.date (frOpt.getD "") then false
    else if jsTruthy toOpt ∧ strLt (toOpt.getD "") o.date then false
    else true)

/-! ### CSV parsing (server-parsed CSV variant, discrepancyQuery.ts) -/

/-- Model of `text.split(/\r?\n/)`: each `\r\n` or `\n` delimits a line; a
lone `\r` not followed by `\n` is ordinary content.  `cur` holds the current
line's characters in reverse. -/
def splitLinesGo : List Char → List Char → List (List Char)
  | [], cur => [cur.reverse]
  | [c], cur =>
    if c = '\n' then cur.reverse :: splitLinesGo [] []
    else splitLinesGo [] (c :: cur)
  | c :: c2 :: rest, cur =>
    if c = '\n' then cur.reverse :: splitLinesGo (c2 :: rest) []
    else if c = '\r' ∧ c2 = '\n' then cur.reverse :: splitLinesGo rest []
    else splitLinesGo (c2 :: rest) (c :: cur)

/-- Truthiness of `l.trim()` in the blank-line filter: the line has some
non-whitespace character. -/
def jsTrimNonempty (l : List Char) : Bool :=
  l.any (fun c => decide (¬ c.isWhitespace))

/-- The character loop of `parseLine` inside `parseCSV`: `current` is the
field being built (reversed), `result` the completed fields.  A quote toggles
`inQuotes` unless it is the first of a doubled pair inside quotes, which
emits one literal quote; a comma outside quotes ends the field. -/
def parseLineGo : List Char → Bool → List Char → List (List Char) → List (List Char)
  | [], _, current, result => result ++ [current.reverse]
  | [c], inQuotes, current, result =>
    if c = '"' then parseLineGo [] (! inQuotes) current result
    else if c = ',' ∧ inQuotes = false then
      parseLineGo [] inQuotes [] (result ++ [current.reverse])
    else parseLineGo [] inQuotes (c :: current) result
  | c :: c2 :: rest, inQuotes, current, result =>
    if c = '"' then
      if inQuotes then
        if c2 = '"' then parseLineGo rest true ('"' :: current) result
        else parseLineGo (c2 :: rest) false current result
      else parseLineGo (c2 :: rest) true current result
    else if c = ',' ∧ inQuotes = false then
      parseLineGo (c2 :: rest) inQuotes [] (result ++ [current.reverse])
    else parseLineGo (c2 :: rest) inQuotes (c :: current) result

/-- `parseLine` of `parseCSV`. -/
def parseLine (l : List Char) : List String :=
  (parseLineGo l false [] []).map (fun cs => String.mk cs)

/-- `headers.forEach((h, i) => row[h] = values[i] ?? "")`: positional zip of
headers with values, padding missing values with the empty string.  (With
duplicate headers JS would keep the last occurrence; the repository's CSVs
have distinct headers.) -/
def buildRow : List String → List String → List (String × String)
  | [], _ => []
  | h :: hs, [] => (h, "") :: buildRow hs []
  | h :: hs, v :: vs => (h, v) :: buildRow hs vs

/-- Field access `row[k]` on a parsed CSV row, empty when the header is
absent. -/
def rowGet (r : List (String × String)) (k : String) : String :=
  match r.find? (fun kv => decide (kv.1 = k)) with
  | some kv => kv.2
  | none => ""

/-- `parseCSV` up to the `OrderRow` cast: split into lines, drop blank
lines, require a header plus at least one data row, parse each data row
positionally against the header, drop rows whose values are all empty. -/
def parseCSVRows (text : String) : List (List (String × String)) :=
  let lines := (splitLinesGo text.data []).filter jsTrimNonempty
  match lines with
  | [] => []
  | [_] => []
  | l0 :: ls =>
    let headers := parseLine l0
    (ls.map (fun line => buildRow headers (parseLine line))).filter
      (fun r => r.any (fun kv => decide (kv.2 ≠ "")))

/-- The `as OrderRow` cast of a parsed CSV row: named field access with
empty-string default for missing headers. -/
def toOrderRow (r : List (String × String)) : OrderRow :=
  { orderNumber := rowGet r "Order Number"
    orderStatus := rowGet r "Order Status"
    organizationName := rowGet r "Organization Name"
    transportType := rowGet r "Transport Type"
    serviceType := rowGet r "Service Type"
    carrierName := rowGet r "Carrier Name"
    originPickupDate := rowGet r "Origin Pickup Date"
    originCountry := rowGet r "Origin Country"
    destinationCountry := rowGet r "Destination Country"
    lane := rowGet r "Lane (Origin -> Destination Province)"
    sellingPriceCAD := rowGet r "Selling Price (CAD)"
    billedSellingPriceCAD := rowGet r "Billed Selling Price (CAD)"
    marginCAD := rowGet r "Margin (CAD $)"
    marginPct := rowGet r "Margin (%)" }

/-- `parseCSV : string -> OrderRow[]`. -/
def parseCSV (text : String) : List OrderRow :=
  (parseCSVRows text).map toOrderRow

/-! ### Snapshot states and load / clear / query operations -/

/-- Module state of the database-backed variant: `cachedRows`,
`lastFetched` (modelled as an optional abstract timestamp) and
`lastCriticalCount` (a JS number, kept as an integer). -/
structure DbState where
  cachedRows : List OrderRow
  lastFetched : Option ℕ
  lastCriticalCount : ℤ
deriving DecidableEq, Repr

/-- Initial module state. -/
def initialDbState : DbState := { cachedRows := [], lastFetched := none, lastCriticalCount := 0 }

/-- Outcome of a load operation: the state left behind, whether the critical
alert was delivered, and whether the operation rejected (propagated an
exception to its caller). -/
structure RefreshResult where
  state : DbState
  alerted : Bool
  threw : Bool
deriving DecidableEq, Repr

/-- `refreshData` of discrepancyQuery.ts.  The upstream query result is an
explicit `Except` argument; `notifyOk` says whether the notification sink
call would succeed.  The whole body sits in one `try`, whose `catch` only
logs: a fetch failure touches nothing, and a sink failure is swallowed after
the cache was already replaced but BEFORE `lastCriticalCount` was updated. -/
def refreshData (s : DbState) (fetched : Except Unit (List OrderRow)) (t : ℕ)
    (notifyOk : Bool) : RefreshResult :=
  match fetched with
  | .error _ => { state := s, alerted := false, threw := false }
  | .ok rows =>
    let s1 : DbState := { s with cachedRows := rows, lastFetched := some t }
    let stats := computeCustomerStats rows
    let currentCriticalCount : ℤ := (redCount stats : ℤ)
    if currentCriticalCount > s.lastCriticalCount ∧ s.lastCriticalCount ≥ 0 then
      if notifyOk then
        { state := { s1 with lastCriticalCount := currentCriticalCount }
          alerted := true, threw := false }
      else
        { state := s1, alerted := false, threw := false }
    else
      { state := { s1 with lastCriticalCount := currentCriticalCount }
        alerted := false, threw := false }

/-- The lazy-load guard `if (cachedRows.length === 0) await refreshData()`
at the top of every database-backed query. -/
def lazyRefresh (s : DbState) (fetched : Except Unit (List OrderRow)) (t : ℕ)
    (notifyOk : Bool) : DbState :=
  if s.cachedRows.isEmpty then (refreshData s fetched t notifyOk).state else s

/-- Response shape of `getStats` (database-backed variant). -/
structure StatsSummary where
  totalCustomers : ℕ
  totalOrders : ℕ
  totalDiscrepancy : ℚ
  totalOvercharges : ℕ
  totalUndercharges : ℕ
  avgDiscrepancyRate : ℚ
  criticalCount : ℕ
  lastFetched : Option ℕ
deriving DecidableEq, Repr

/-- The KPI computation shared by `getStats`: filter, aggregate, and reduce.
`Math.round(x * 10000) / 100` equals `round2 (x * 100)`. -/
def statsSummaryOf (rows0 : List OrderRow) (frOpt toOpt : Option String)
    (lf : Option ℕ) : StatsSummary :=
  let rows := filterByDateRange rows0 frOpt toOpt
  let stats := computeCustomerStats rows
  let totalDiscrepancy := (stats.map (fun c => c.totalDiscrepancy)).sum
  let totalSelling := (stats.map (fun c => c.totalSelling)).sum
  { totalCustomers := stats.length
    totalOrders := rows.length
    totalDiscrepancy := round2 totalDiscrepancy
    totalOvercharges := (stats.map (fun c => c.overcharges)).sum
    totalUndercharges := (stats.map (fun c => c.undercharges)).sum
    avgDiscrepancyRate :=
      if totalSelling > 0 then round2 (totalDiscrepancy / totalSelling * 100) else 0
    criticalCount := redCount stats
    lastFetched := lf }

/-- `getStats` of the database-backed variant: lazy refresh on an empty
cache, then a pure read of the (possibly refreshed) state. -/
def getStatsDB (s : DbState) (fetched : Except Unit (List OrderRow)) (t : ℕ)
    (notifyOk : Bool) (frOpt toOpt : Option String) : DbState × StatsSummary :=
  let s1 := lazyRefresh s fetched t notifyOk
  (s1, statsSummaryOf s1.cachedRows frOpt toOpt s1.lastFetched)

/-- `getCustomers` of the database-backed variant. -/
def getCustomersDB (s : DbState) (fetched : Except Unit (List OrderRow)) (t : ℕ)
    (notifyOk : Bool) (frOpt toOpt : Option String) : DbState × List CustomerStat :=
  let s1 := lazyRefresh s fetched t notifyOk
  (s1, computeCustomerStats (filterByDateRange s1.cachedRows frOpt toOpt))

/-- `getOrdersByCustomer` of the database-backed variant. -/
def getOrdersByCustomerDB (s : DbState) (fetched : Except Unit (List OrderRow))
    (t : ℕ) (notifyOk : Bool) (customer : String) (frOpt toOpt : Option String) :
    DbState × List OrderRecord :=
  let s1 := lazyRefresh s fetched t notifyOk
  (s1, ordersForCustomer s1.cachedRows customer frOpt toOpt)

/-- The numeric/list content of the chat context block (the surrounding
prose is fixed formatting). -/
structure ChatContext where
  stats : List CustomerStat
  totalOrders : ℕ
  totalDisc : ℚ
  topOvercharged : List CustomerStat
  topUndercharged : List CustomerStat
deriving DecidableEq, Repr

/-- `chat` of the database-backed variant, up to the external LLM call:
lazy refresh, then a pure context computation. -/
def chatDB (s : DbState) (fetched : Except Unit (List OrderRow)) (t : ℕ)
    (notifyOk : Bool) (frOpt toOpt : Option String) : DbState × ChatContext :=
  let s1 := lazyRefresh s fetched t notifyOk
  let rows := filterByDateRange s1.cachedRows frOpt toOpt
  let stats := computeCustomerStats rows
  (s1,
    { stats := stats
      totalOrders := rows.length
      totalDisc := (stats.map (fun c => c.totalDiscrepancy)).sum
      topOvercharged := (stats.filter (fun c => decide (c.totalDiscrepancy > 0))).take 5
      topUndercharged := (stats.filter (fun c => decide (c.totalDiscrepancy < 0))).take 5 })

/-- Module state of the server-parsed CSV variant. -/
structure CsvState where
  cachedRows : List OrderRow
  lastFetched : Option ℕ
  csvFilename : Option String
  lastCriticalCount : ℤ
deriving DecidableEq, Repr

/-- Initial CSV-variant state. -/
def initialCsvState : CsvState :=
  { cachedRows := [], lastFetched := none, csvFilename := none, lastCriticalCount := 0 }

/-- Outcome of `loadCSVData`. -/
structure LoadResult where
  state : CsvState
  alerted : Bool
  threw : Bool
deriving DecidableEq, Repr

/-- `loadCSVData` of discrepancyQuery.ts.  Unlike `refreshData` there is no
try/catch: when the alert fires and the notification sink rejects, the
rejection propagates (`threw := true`) after the cache, timestamp and
filename were replaced but before `lastCriticalCount` was updated. -/
def loadCSVData (s : CsvState) (csvText : String) (filename : Option String)
    (t : ℕ) (notifyOk : Bool) : LoadResult :=
  let rows := parseCSV csvText
  let s1 : CsvState :=
    { s with
      cachedRows := rows
      lastFetched := some t
      csvFilename := some (filename.getD "uploaded.csv") }
  let stats := computeCustomerStats rows
  let currentCriticalCount : ℤ := (redCount stats : ℤ)
  if currentCriticalCount > s.lastCriticalCount ∧ s.lastCriticalCount ≥ 0 then
    if notifyOk then
      { state := { s1 with lastCriticalCount := currentCriticalCount }
        alerted := true, threw := false }
    else
      { state := s1, alerted := false, threw := true }
  else
    { state := { s1 with lastCriticalCount := currentCriticalCount }
      alerted := false, threw := false }

/-- `clearData` of the CSV variant: wipe everything, re-arm the alert. -/
def clearData (_s : CsvState) : CsvState :=
  { cachedRows := [], lastFetched := none, csvFilename := none, lastCriticalCount := 0 }

/-- One operation against the CSV-variant snapshot, with the notification
sink assumed available. -/
inductive SnapOp where
  | load (csvText : String) (filename : Option String) (t : ℕ)
  | clear
deriving DecidableEq, Repr

/-- State transition of one operation. -/
def stepOp (s : CsvState) : SnapOp → CsvState
  | .load text fn t => (loadCSVData s text fn t true).state
  | .clear => clearData s

/-- Run a sequence of operations from the empty snapshot. -/
def runOps (ops : List SnapOp) : CsvState :=
  ops.foldl stepOp initialCsvState

/-- Module state of the client-pre-aggregated variant. -/
structure ClientState where
  cachedStats : List CustomerStat
  cachedOrders : List FlatOrder
  lastFetched : Option ℕ
  lastCriticalCount : ℤ
  csvFilename : Option String
  totalOrderCount : ℕ
deriving DecidableEq, Repr

/-- Initial client-variant state. -/
def initialClientState : ClientState :=
  { cachedStats := [], cachedOrders := [], lastFetched := none
    lastCriticalCount := 0, csvFilename := none, totalOrderCount := 0 }

/-- Outcome of the client-variant `uploadCSV`. -/
structure UploadResult where
  state : ClientState
  alerted : Bool
  threw : Bool
deriving DecidableEq, Repr

/-- `uploadCSV` of the client-pre-aggregated variant: stores the
caller-supplied stats, orders and `totalRows` verbatim, then runs the same
alert logic on the supplied stats; as in `loadCSVData`, a sink rejection
propagates and skips the `lastCriticalCount` update. -/
def uploadCSVClient (s : ClientState) (stats : List CustomerStat)
    (orders : List FlatOrder) (totalRows : ℕ) (filename : Option String)
    (t : ℕ) (notifyOk : Bool) : UploadResult :=
  let s1 : ClientState :=
    { s with
      cachedStats := stats
      cachedOrders := orders
      totalOrderCount := totalRows
      lastFetched := some t
      csvFilename := some (filename.getD "uploaded.csv") }
  let currentCriticalCount : ℤ := (redCount stats : ℤ)
  if currentCriticalCount > s.lastCriticalCount ∧ s.lastCriticalCount ≥ 0 then
    if notifyOk then
      { state := { s1 with lastCriticalCount := currentCriticalCount }
        alerted := true, threw := false }
    else
      { state := s1, alerted := false, threw := true }
  else
    { state := { s1 with lastCriticalCount := currentCriticalCount }
      alerted := false, threw := false }

/-- Response shape of the CSV / client variants' `getStats` (adds
`csvFilename` and `hasData` to `StatsSummary`). -/
structure StatsSummaryFull where
  totalCustomers : ℕ
  totalOrders : ℕ
  totalDiscrepancy : ℚ
  totalOvercharges : ℕ
  totalUndercharges : ℕ
  avgDiscrepancyRate : ℚ
  criticalCount : ℕ
  lastFetched : Option ℕ
  csvFilename : Option String
  hasData : Bool
deriving DecidableEq, Repr

/-- `getStats` of the client-pre-aggregated variant: with a truthy bound the
stats are recomputed from the date-filtered flat orders, otherwise the
cached stats are served; `totalOrders` is the stored `totalOrderCount`
(the caller-supplied `totalRows`) in the unfiltered case, and `hasData`
looks at the cached stats. -/
def getStatsClient (s : ClientState) (frOpt toOpt : Option String) : StatsSummaryFull :=
  let useFilter := jsTruthy frOpt || jsTruthy toOpt
  let stats :=
    if useFilter then computeStatsFromOrders (filterOrdersByDate s.cachedOrders frOpt toOpt)
    else s.cachedStats
  let totalDiscrepancy := (stats.map (fun c => c.totalDiscrepancy)).sum
  let totalSelling := (stats.map (fun c => c.totalSelling)).sum
  let filteredOrderCount :=
    if useFilter then (filterOrdersByDate s.cachedOrders frOpt toOpt).length
    else s.totalOrderCount
  { totalCustomers := stats.length
    totalOrders := filteredOrderCount
    totalDiscrepancy := round2 totalDiscrepancy
    totalOvercharges := (stats.map (fun c => c.overcharges)).sum
    totalUndercharges := (stats.map (fun c => c.undercharges)).sum
    avgDiscrepancyRate :=
      if totalSelling > 0 then round2 (totalDiscrepancy / totalSelling * 100) else 0
    criticalCount := redCount stats
    lastFetched := s.lastFetched
    csvFilename := s.csvFilename
    hasData := decide (s.cachedStats.length > 0) }

/-! ### Concrete sample data for witnesses and counterexamples -/

/-- Build a raw row with the fields the aggregation logic reads. -/
def mkRow (org selling billed date : String) : OrderRow :=
  { orderNumber := "1"
    orderStatus := "DISPATCHED"
    organizationName := org
    transportType := "PARCEL"
    serviceType := "Ground"
    carrierName := "UPS"
    originPickupDate := date
    originCountry := "CA"
    destinationCountry := "CA"
    lane := "QC -> ON"
    sellingPriceCAD := selling
    billedSellingPriceCAD := billed
    marginCAD := "0"
    marginPct := "0" }

/-- Billed minus selling is 0.011: above the 0.01 flag band, but rounding
the `discrepancy` field lands exactly on 0.01. -/
def cexRowC2 : OrderRow := mkRow "C" "0" "0.011" ""

/-- Unrounded total discrepancy 499.996: below the 500 severity cutoff, but
the returned rounded `totalDiscrepancy` is exactly 500. -/
def cexRowC3 : OrderRow := mkRow "C" "0" "499.996" ""

/-- A row putting its customer 600 CAD in the red tier. -/
def redRow : OrderRow := mkRow "ACME" "0" "600" "2025-10-01"

/-- A mildly overcharged sample row. -/
def rowA : OrderRow := mkRow "ACME" "100.00" "150.00" "2025-10-01"

/-- A flat order with an empty date, as the client-side parser produces for
a row with no pickup date. -/
def emptyDateOrder : FlatOrder :=
  { orderNumber := "1"
    customer := "ACME"
    date := ""
    transportType := "PARCEL"
    serviceType := "Ground"
    carrier := "UPS"
    lane := "QC -> ON"
    originCountry := "CA"
    destCountry := "CA"
    sellingPrice := 100
    billedPrice := 150
    discrepancy := 50
    margin := 50
    marginPct := 33
    flag := .overcharge }

/-- CSV text whose single data row puts ACME 600 CAD in the red tier. -/
def redCsv : String :=
  "Organization Name,Selling Price (CAD),Billed Selling Price (CAD)\nACME,0,600"

/-- CSV text with a newline inside a quoted field. -/
def nlCsv : String := "h1,h2\n\"x\ny\",2"

/-- The single row `parseCSV` extracts from `redCsv`. -/
def redCsvRow : OrderRow :=
  { orderNumber := ""
    orderStatus := ""
    organizationName := "ACME"
    transportType := ""
    serviceType := ""
    carrierName := ""
    originPickupDate := ""
    originCountry := ""
    destinationCountry := ""
    lane := ""
    sellingPriceCAD := "0"
    billedSellingPriceCAD := "600"
    marginCAD := ""
    marginPct := "" }

/-- A pre-aggregated red-severity customer stat, as the client supplies. -/
def redStat : CustomerStat :=
  { customer := "ACME"
    orders := 1
    totalSelling := 0
    totalBilled := 600
    totalDiscrepancy := 600
    overcharges := 1
    undercharges := 0
    matched := 0
    discrepancyRate := 0
    severity := .red }

/-- Standard CSV field escaping: double every quote. -/
def escQuotes : List Char → List Char
  | [] => []
  | c :: cs => if c = '"' then '"' :: '"' :: escQuotes cs else c :: escQuotes cs

/-- A field wrapped in quotes with inner quotes doubled. -/
def encodeField (f : List Char) : List Char := '"' :: (escQuotes f ++ ['"'])

/-- A CSV line of quoted fields joined by commas. -/
def encodeLine : List (List Char) → List Char
  | [] => []
  | [f] => encodeField f
  | f :: fs => encodeField f ++ ',' :: encodeLine fs

/-! ### Lemmas about the aggregation map -/

theorem accRow_customer (r : OrderRow) (s : CustomerAcc) :
    (accRow r s).customer = s.customer := by
  simp only [accRow]
  split_ifs <;> rfl

theorem accRow_orders (r : OrderRow) (s : CustomerAcc) :
    (accRow r s).orders = s.orders + 1 := by
  simp only [accRow]
  split_ifs <;> rfl

theorem insertRow_customers (m : List CustomerAcc) (r : OrderRow) :
    (insertRow m r).map CustomerAcc.customer =
      if customerOf r ∈ m.map CustomerAcc.customer then m.map CustomerAcc.customer
      else m.map CustomerAcc.customer ++ [customerOf r] := by
  induction m with
  | nil => simp [insertRow, accRow_customer, emptyAcc]
  | cons s rest ih =>
    by_cases h : s.customer = customerOf r
    · simp [insertRow, h, accRow_customer]
    · by_cases hm : customerOf r ∈ rest.map CustomerAcc.customer
      · simp [insertRow, h, ih, hm, Ne.symm h]
      · simp [insertRow, h, ih, hm, Ne.symm h]

theorem insertRow_mem_customer (m : List CustomerAcc) (r : OrderRow) (c : String) :
    c ∈ (insertRow m r).map CustomerAcc.customer ↔
      c ∈ m.map CustomerAcc.customer ∨ c = customerOf r := by
  rw [insertRow_customers]
  split_ifs with h
  · constructor
    · exact Or.inl
    · rintro (h1 | rfl)
      · exact h1
      · exact h
  · simp

theorem insertRow_orders_sum (m : List CustomerAcc) (r : OrderRow) :
    ((insertRow m r).map CustomerAcc.orders).sum =
      (m.map CustomerAcc.orders).sum + 1 := by
  induction m with
  | nil => simp [insertRow, accRow_orders, emptyAcc]
  | cons s rest ih =>
    by_cases h : s.customer = customerOf r
    · simp [insertRow, h, accRow_orders]
      omega
    · simp [insertRow, h, ih]
      omega

theorem insertRow_orders_pos (m : List CustomerAcc) (r : OrderRow)
    (h : ∀ s ∈ m, 0 < s.orders) :
    ∀ s ∈ insertRow m r, 0 < s.orders := by
  induction m with
  | nil =>
    intro s hs
    simp [insertRow] at hs
    simp [hs, accRow_orders]
  | cons a rest ih =>
    intro s hs
    by_cases hc : a.customer = customerOf r
    · simp [insertRow, hc] at hs
      rcases hs with hs | hs
      · simp [hs, accRow_orders]
      · exact h s (by simp [hs])
    · simp [insertRow, hc] at hs
      rcases hs with hs | hs
      · exact h s (by simp [hs])
      · exact ih (fun t ht => h t (by simp [ht])) s hs

theorem insertRow_nodup (m : List CustomerAcc) (r : OrderRow)
    (h : (m.map CustomerAcc.customer).Nodup) :
    ((insertRow m r).map CustomerAcc.customer).Nodup := by
  rw [insertRow_customers]
  split_ifs with hm
  · exact h
  · simp [List.nodup_append, h, hm]

theorem foldl_insertRow_mem (rows : List OrderRow) :
    ∀ (m : List CustomerAcc) (c : String),
      c ∈ (rows.foldl insertRow m).map CustomerAcc.customer ↔
        c ∈ m.map CustomerAcc.customer ∨ c ∈ rows.map customerOf := by
  induction rows with
  | nil => simp
  | cons r rest ih =>
    intro m c
    rw [List.foldl_cons, ih, insertRow_mem_customer, List.map_cons, List.mem_cons]
    tauto

theorem foldl_insertRow_sum (rows : List OrderRow) :
    ∀ m : List CustomerAcc,
      ((rows.foldl insertRow m).map CustomerAcc.orders).sum =
        (m.map CustomerAcc.orders).sum + rows.length := by
  induction rows with
  | nil => simp
  | cons r rest ih =>
    intro m
    rw [List.foldl_cons, ih, insertRow_orders_sum]
    simp
    omega

theorem foldl_insertRow_pos (rows : List OrderRow) :
    ∀ m : List CustomerAcc, (∀ s ∈ m, 0 < s.orders) →
      ∀ s ∈ rows.foldl insertRow m, 0 < s.orders := by
  induction rows with
  | nil => exact fun m h => h
  | cons r rest ih =>
    intro m h
    exact ih _ (insertRow_orders_pos m r h)

theorem foldl_insertRow_nodup (rows : List OrderRow) :
    ∀ m : List CustomerAcc, (m.map CustomerAcc.customer).Nodup →
      ((rows.foldl insertRow m).map CustomerAcc.customer).Nodup := by
  induction rows with
  | nil => exact fun m h => h
  | cons r rest ih =>
    intro m h
    exact ih _ (insertRow_nodup m r h)

/-- The sort step is a permutation, so the customer labels of the final
output are a permutation of the accumulator's labels. -/
theorem computeCustomerStats_customers_perm (rows : List OrderRow) :
    List.Perm ((computeCustomerStats rows).map CustomerStat.customer)
      ((rows.foldl insertRow []).map CustomerAcc.customer) := by
  have hp := List.perm_insertionSort statLE ((rows.foldl insertRow []).map finalize)
  have := hp.map CustomerStat.customer
  simpa [computeCustomerStats, List.map_map, Function.comp] using this

theorem computeCustomerStats_orders_perm (rows : List OrderRow) :
    List.Perm ((computeCustomerStats rows).map CustomerStat.orders)
      ((rows.foldl insertRow []).map CustomerAcc.orders) := by
  have hp := List.perm_insertionSort statLE ((rows.foldl insertRow []).map finalize)
  have := hp.map CustomerStat.orders
  simpa [computeCustomerStats, List.map_map, Function.comp] using this

theorem accOrder_customer (o : FlatOrder) (s : CustomerStat) :
    (accOrder o s).customer = s.customer := by
  simp only [accOrder]
  cases o.flag <;> rfl

theorem accOrder_orders (o : FlatOrder) (s : CustomerStat) :
    (accOrder o s).orders = s.orders + 1 := by
  simp only [accOrder]
  cases o.flag <;> rfl

theorem insertOrder_customers (m : List CustomerStat) (o : FlatOrder) :
    (insertOrder m o).map CustomerStat.customer =
      if customerOfOrder o ∈ m.map CustomerStat.customer then m.map CustomerStat.customer
      else m.map CustomerStat.customer ++ [customerOfOrder o] := by
  induction m with
  | nil => simp [insertOrder, accOrder_customer, emptyStat]
  | cons s rest ih =>
    by_cases h : s.customer = customerOfOrder o
    · simp [insertOrder, h, accOrder_customer]
    · by_cases hm : customerOfOrder o ∈ rest.map CustomerStat.customer
      · simp [insertOrder, h, ih, hm, Ne.symm h]
      · simp [insertOrder, h, ih, hm, Ne.symm h]

theorem insertOrder_mem_customer (m : List CustomerStat) (o : FlatOrder) (c : String) :
    c ∈ (insertOrder m o).map CustomerStat.customer ↔
      c ∈ m.map CustomerStat.customer ∨ c = customerOfOrder o := by
  rw [insertOrder_customers]
  split_ifs with h
  · constructor
    · exact Or.inl
    · rintro (h1 | rfl)
      · exact h1
      · exact h
  · simp

theorem insertOrder_orders_sum (m : List CustomerStat) (o : FlatOrder) :
    ((insertOrder m o).map CustomerStat.orders).sum =
      (m.map CustomerStat.orders).sum + 1 := by
  induction m with
  | nil => simp [insertOrder, accOrder_orders, emptyStat]
  | cons s rest ih =>
    by_cases h : s.customer = customerOfOrder o
    · simp [insertOrder, h, accOrder_orders]
      omega
    · simp [insertOrder, h, ih]
      omega

theorem insertOrder_orders_pos (m : List CustomerStat) (o : FlatOrder)
    (h : ∀ s ∈ m, 0 < s.orders) :
    ∀ s ∈ insertOrder m o, 0 < s.orders := by
  induction m with
  | nil =>
    intro s hs
    simp [insertOrder] at hs
    simp [hs, accOrder_orders]
  | cons a rest ih =>
    intro s hs
    by_cases hc : a.customer = customerOfOrder o
    · simp [insertOrder, hc] at hs
      rcases hs with hs | hs
      · simp [hs, accOrder_orders]
      · exact h s (by simp [hs])
    · simp [insertOrder, hc] at hs
      rcases hs with hs | hs
      · exact h s (by simp [hs])
      · exact ih (fun t ht => h t (by simp [ht])) s hs

theorem insertOrder_nodup (m : List CustomerStat) (o : FlatOrder)
    (h : (m.map CustomerStat.customer).Nodup) :
    ((insertOrder m o).map CustomerStat.customer).Nodup := by
  rw [insertOrder_customers]
  split_ifs with hm
  · exact h
  · simp [List.nodup_append, h, hm]

theorem foldl_insertOrder_mem (orders : List FlatOrder) :
    ∀ (m : List CustomerStat) (c : String),
      c ∈ (orders.foldl insertOrder m).map CustomerStat.customer ↔
        c ∈ m.map CustomerStat.customer ∨ c ∈ orders.map customerOfOrder := by
  induction orders with
  | nil => simp
  | cons o rest ih =>
    intro m c
    rw [List.foldl_cons, ih, insertOrder_mem_customer, List.map_cons, List.mem_cons]
    tauto

theorem foldl_insertOrder_sum (orders : List FlatOrder) :
    ∀ m : List CustomerStat,
      ((orders.foldl insertOrder m).map CustomerStat.orders).sum =
        (m.map CustomerStat.orders).sum + orders.length := by
  induction orders with
  | nil => simp
  | cons o rest ih =>
    intro m
    rw [List.foldl_cons, ih, insertOrder_orders_sum]
    simp
    omega

theorem foldl_insertOrder_pos (orders : List FlatOrder) :
    ∀ m : List CustomerStat, (∀ s ∈ m, 0 < s.orders) →
      ∀ s ∈ orders.foldl insertOrder m, 0 < s.orders := by
  induction orders with
  | nil => exact fun m h => h
  | cons o rest ih =>
    intro m h
    exact ih _ (insertOrder_orders_pos m o h)

theorem foldl_insertOrder_nodup (orders : List FlatOrder) :
    ∀ m : List CustomerStat, (m.map CustomerStat.customer).Nodup →
      ((orders.foldl insertOrder m).map CustomerStat.customer).Nodup := by
  induction orders with
  | nil => exact fun m h => h
  | cons o rest ih =>
    intro m h
    exact ih _ (insertOrder_nodup m o h)

theorem computeStatsFromOrders_customers_perm (orders : List FlatOrder) :
    List.Perm ((computeStatsFromOrders orders).map CustomerStat.customer)
      ((orders.foldl insertOrder []).map CustomerStat.customer) := by
  have hp := List.perm_insertionSort statLE ((orders.foldl insertOrder []).map finalizeStat)
  have := hp.map CustomerStat.customer
  simpa [computeStatsFromOrders, List.map_map, Function.comp, finalizeStat] using this

theorem computeStatsFromOrders_orders_perm (orders : List FlatOrder) :
    List.Perm ((computeStatsFromOrders orders).map CustomerStat.orders)
      ((orders.foldl insertOrder []).map CustomerStat.orders) := by
  have hp := List.perm_insertionSort statLE ((orders.foldl insertOrder []).map finalizeStat)
  have := hp.map CustomerStat.orders
  simpa [computeStatsFromOrders, List.map_map, Function.comp, finalizeStat] using this

/-- C1, packaged over both aggregation entry points. -/
theorem aggregation_invariants_dq (rows : List OrderRow) :
    ((computeCustomerStats rows).map CustomerStat.customer).Nodup ∧
    (∀ c, c ∈ (computeCustomerStats rows).map CustomerStat.customer ↔
      c ∈ rows.map customerOf) ∧
    ((computeCustomerStats rows).map CustomerStat.orders).sum = rows.length ∧
    (∀ s ∈ computeCustomerStats rows, 0 < s.orders) := by
  have hc := computeCustomerStats_customers_perm rows
  have ho := computeCustomerStats_orders_perm rows
  refine ⟨?_, ?_, ?_, ?_⟩
  · exact hc.nodup_iff.mpr (foldl_insertRow_nodup rows [] (by simp))
  · intro c
    rw [hc.mem_iff, foldl_insertRow_mem rows [] c]
    simp
  · rw [ho.sum_eq, foldl_insertRow_sum rows []]
    simp
  · intro s hs
    have : s ∈ (rows.foldl insertRow []).map finalize := by
      simpa [computeCustomerStats] using hs
    obtain ⟨a, ha, rfl⟩ := List.mem_map.mp this
    have := foldl_insertRow_pos rows [] (by simp) a ha
    simpa [finalize] using this

/-- C1 for the client-pre-aggregated variant's aggregator. -/
theorem aggregation_invariants_client (orders : List FlatOrder) :
    ((computeStatsFromOrders orders).map CustomerStat.customer).Nodup ∧
    (∀ c, c ∈ (computeStatsFromOrders orders).map CustomerStat.customer ↔
      c ∈ orders.map customerOfOrder) ∧
    ((computeStatsFromOrders orders).map CustomerStat.orders).sum = orders.length ∧
    (∀ s ∈ computeStatsFromOrders orders, 0 < s.orders) := by
  have hc := computeStatsFromOrders_customers_perm orders
  have ho := computeStatsFromOrders_orders_perm orders
  refine ⟨?_, ?_, ?_, ?_⟩
  · exact hc.nodup_iff.mpr (foldl_insertOrder_nodup orders [] (by simp))
  · intro c
    rw [hc.mem_iff, foldl_insertOrder_mem orders [] c]
    simp
  · rw [ho.sum_eq, foldl_insertOrder_sum orders []]
    simp
  · intro s hs
    have : s ∈ (orders.foldl insertOrder []).map finalizeStat := by
      simpa [computeStatsFromOrders] using hs
    obtain ⟨a, ha, rfl⟩ := List.mem_map.mp this
    have := foldl_insertOrder_pos orders [] (by simp) a ha
    simpa [finalizeStat] using this

/-- C1: every distinct customer of the record set appears exactly once in
the aggregate output, the `orders` counts sum to the record-set size, and a
customer with no matching record never appears — for `computeCustomerStats`
(both server variants) and for `computeStatsFromOrders` (client variant). -/
theorem C1_aggregation_invariants :
    (∀ rows : List OrderRow,
      ((computeCustomerStats rows).map CustomerStat.customer).Nodup ∧
      (∀ c, c ∈ (computeCustomerStats rows).map CustomerStat.customer ↔
        c ∈ rows.map customerOf) ∧
      ((computeCustomerStats rows).map CustomerStat.orders).sum = rows.length ∧
      (∀ s ∈ computeCustomerStats rows, 0 < s.orders)) ∧
    (∀ orders : List FlatOrder,
      ((computeStatsFromOrders orders).map CustomerStat.customer).Nodup ∧
      (∀ c, c ∈ (computeStatsFromOrders orders).map CustomerStat.customer ↔
        c ∈ orders.map customerOfOrder) ∧
      ((computeStatsFromOrders orders).map CustomerStat.orders).sum = orders.length ∧
      (∀ s ∈ computeStatsFromOrders orders, 0 < s.orders)) :=
  ⟨aggregation_invariants_dq, aggregation_invariants_client⟩

/-- C1 witness: the sum of `orders` over the aggregate of one concrete row
is that record set's size. -/
theorem C1_aggregation_invariants_witness :
    ((computeCustomerStats [rowA]).map CustomerStat.orders).sum = 1 := by
  have h := C1_aggregation_invariants.1 [rowA]
  simpa using h.2.2.1

/-! ### Severity ladder lemmas -/

theorem severityOf_red_iff (q : ℚ) : severityOf q = Severity.red ↔ 500 ≤ |q| := by
  unfold severityOf
  split_ifs with h1 h2
  · exact iff_of_false (by simp) (fun h => absurd h (not_le.mpr (by linarith)))
  · exact iff_of_false (by simp) (fun h => absurd h (not_le.mpr h2))
  · exact iff_of_true rfl (not_lt.mp h2)

theorem severityOf_yellow_iff (q : ℚ) :
    severityOf q = Severity.yellow ↔ 50 ≤ |q| ∧ |q| < 500 := by
  unfold severityOf
  split_ifs with h1 h2
  · exact iff_of_false (by simp) (fun h => absurd h.1 (not_le.mpr h1))
  · exact iff_of_true rfl ⟨not_lt.mp h1, h2⟩
  · exact iff_of_false (by simp) (fun h => absurd h.2 h2)

theorem severityOf_green_iff (q : ℚ) : severityOf q = Severity.green ↔ |q| < 50 := by
  unfold severityOf
  split_ifs with h1 h2
  · exact iff_of_true rfl h1
  · exact iff_of_false (by simp) h1
  · exact iff_of_false (by simp) h1

/-! ### C2: order flag versus discrepancy field -/

/-- What `getOrdersByCustomer`'s mapping actually guarantees for each
produced record. -/
theorem toOrderRecord_spec (r : OrderRow) :
    ((toOrderRecord r).flag = Flag.overcharge ↔
      (toOrderRecord r).billedPrice - (toOrderRecord r).sellingPrice > 1 / 100) ∧
    ((toOrderRecord r).flag = Flag.undercharge ↔
      (toOrderRecord r).billedPrice - (toOrderRecord r).sellingPrice < -(1 / 100)) ∧
    ((toOrderRecord r).flag = Flag.matched ↔
      (-(1 / 100) ≤ (toOrderRecord r).billedPrice - (toOrderRecord r).sellingPrice ∧
        (toOrderRecord r).billedPrice - (toOrderRecord r).sellingPrice ≤ 1 / 100)) ∧
    (toOrderRecord r).discrepancy =
      round2 ((toOrderRecord r).billedPrice - (toOrderRecord r).sellingPrice) := by
  have hflag : (toOrderRecord r).flag =
      (if parseNum r.billedSellingPriceCAD - parseNum r.sellingPriceCAD > 1 / 100 then
        Flag.overcharge
      else if parseNum r.billedSellingPriceCAD - parseNum r.sellingPriceCAD < -(1 / 100) then
        Flag.undercharge
      else Flag.matched) := rfl
  have hb : (toOrderRecord r).billedPrice = parseNum r.billedSellingPriceCAD := rfl
  have hs : (toOrderRecord r).sellingPrice = parseNum r.sellingPriceCAD := rfl
  refine ⟨?_, ?_, ?_, rfl⟩
  · rw [hflag, hb, hs]
    split_ifs with h1 h2
    · exact iff_of_true rfl h1
    · exact iff_of_false (by simp) h1
    · exact iff_of_false (by simp) h1
  · rw [hflag, hb, hs]
    split_ifs with h1 h2
    · exact iff_of_false (by simp) (fun hx => by linarith)
    · exact iff_of_true rfl h2
    · exact iff_of_false (by simp) h2
  · rw [hflag, hb, hs]
    split_ifs with h1 h2
    · exact iff_of_false (by simp) (fun hx => absurd hx.2 (not_le.mpr h1))
    · exact iff_of_false (by simp) (fun hx => absurd hx.1 (not_le.mpr h2))
    · exact iff_of_true rfl ⟨not_lt.mp h2, not_lt.mp h1⟩

/-- C2 counterexample: a record produced by `getOrdersByCustomer` whose flag
is `overcharge` while its rounded `discrepancy` field is exactly 0.01, so
the flag is not the claimed function of the `discrepancy` field. -/
theorem C2_counterexample :
    toOrderRecord cexRowC2 ∈ ordersForCustomer [cexRowC2] "C" none none ∧
    (toOrderRecord cexRowC2).flag = Flag.overcharge ∧
    ¬ ((toOrderRecord cexRowC2).discrepancy > 1 / 100) := by
  refine ⟨?_, ?_, ?_⟩
  · have h : ordersForCustomer [cexRowC2] "C" none none = [toOrderRecord cexRowC2] := by
      simp [ordersForCustomer, filterByDateRange, jsTruthy, cexRowC2, mkRow,
        List.insertionSort, List.orderedInsert]
    rw [h]
    simp
  · simp [toOrderRecord, cexRowC2, mkRow, parseNum, parseFloatQCore, digitsVal]
    norm_num
  · have h : (toOrderRecord cexRowC2).discrepancy = 1 / 100 := by
      simp [toOrderRecord, cexRowC2, mkRow, parseNum, parseFloatQCore, digitsVal, round2]
      norm_num
    rw [h]
    norm_num

/-- C2 (amended): for every record produced by `getOrdersByCustomer`, the
flag is determined by the UNROUNDED difference `billedPrice - sellingPrice`
(overcharge above 0.01, undercharge below -0.01, match inside the band),
and the `discrepancy` field is that difference rounded to 2 decimals. -/
theorem C2_flag_from_unrounded_difference :
    ∀ (rows : List OrderRow) (customer : String) (frOpt toOpt : Option String)
      (rec : OrderRecord), rec ∈ ordersForCustomer rows customer frOpt toOpt →
      ((rec.flag = Flag.overcharge ↔ rec.billedPrice - rec.sellingPrice > 1 / 100) ∧
       (rec.flag = Flag.undercharge ↔ rec.billedPrice - rec.sellingPrice < -(1 / 100)) ∧
       (rec.flag = Flag.matched ↔
         (-(1 / 100) ≤ rec.billedPrice - rec.sellingPrice ∧
           rec.billedPrice - rec.sellingPrice ≤ 1 / 100)) ∧
       rec.discrepancy = round2 (rec.billedPrice - rec.sellingPrice)) := by
  intro rows customer frOpt toOpt rec hrec
  have hmem : rec ∈ ((filterByDateRange rows frOpt toOpt).filter
      (fun r => decide (r.organizationName = customer))).map toOrderRecord := by
    simpa [ordersForCustomer] using hrec
  obtain ⟨r, _, rfl⟩ := List.mem_map.mp hmem
  exact toOrderRecord_spec r

/-- C2 witness at a concrete overcharged row. -/
theorem C2_flag_witness :
    (toOrderRecord rowA).flag = Flag.overcharge := by
  have hmem : toOrderRecord rowA ∈ ordersForCustomer [rowA] "ACME" none none := by
    have h : ordersForCustomer [rowA] "ACME" none none = [toOrderRecord rowA] := by
      simp [ordersForCustomer, filterByDateRange, jsTruthy, rowA, mkRow,
        List.insertionSort, List.orderedInsert]
    rw [h]
    simp
  have h := C2_flag_from_unrounded_difference [rowA] "ACME" none none
    (toOrderRecord rowA) hmem
  refine h.1.mpr ?_
  have hb : (toOrderRecord rowA).billedPrice = 150 := by
    simp [toOrderRecord, rowA, mkRow, parseNum, parseFloatQCore, digitsVal]
  have hs : (toOrderRecord rowA).sellingPrice = 100 := by
    simp [toOrderRecord, rowA, mkRow, parseNum, parseFloatQCore, digitsVal]
  rw [hb, hs]
  norm_num

/-! ### C3: severity versus total discrepancy -/

/-- C3 counterexample: one record with difference 499.996 yields a returned
`totalDiscrepancy` of exactly 500 with severity `yellow`, refuting
`red ⟺ |totalDiscrepancy| ≥ 500` over the returned rounded field. -/
theorem C3_counterexample :
    (computeCustomerStats [cexRowC3]).map
        (fun s => (s.severity, s.totalDiscrepancy)) = [(Severity.yellow, 500)] ∧
    (500 : ℚ) ≤ |(500 : ℚ)| := by
  have hacc : accRow cexRowC3 (emptyAcc "C") =
      { customer := "C"
        orders := 1
        totalSelling := 0
        totalBilled := 124999 / 250
        totalDiscrepancy := 124999 / 250
        overcharges := 1
        undercharges := 0
        matched := 0 } := by
    simp [accRow, cexRowC3, mkRow, emptyAcc, parseNum, parseFloatQCore, digitsVal]
    norm_num
  have hstats : computeCustomerStats [cexRowC3] =
      [finalize
        { customer := "C"
          orders := 1
          totalSelling := 0
          totalBilled := 124999 / 250
          totalDiscrepancy := 124999 / 250
          overcharges := 1
          undercharges := 0
          matched := 0 }] := by
    have hcust : customerOf cexRowC3 = "C" := by simp [customerOf, cexRowC3, mkRow]
    simp [computeCustomerStats, insertRow, hcust, hacc,
      List.insertionSort, List.orderedInsert]
  constructor
  · rw [hstats]
    have habs : ¬ (|(124999 / 250 : ℚ)| < 50) ∧ (|(124999 / 250 : ℚ)| < 500) := by
      rw [abs_of_nonneg (by norm_num : (0 : ℚ) ≤ 124999 / 250)]
      norm_num
    simp [finalize, severityOf, round2, if_neg habs.1, if_pos habs.2]
    norm_num [Int.floor_eq_iff]
  · norm_num

/-- C3 (amended): each returned stat is the finalization of an accumulator
entry, and its severity is the tier of the accumulator's UNROUNDED
discrepancy sum; the returned `totalDiscrepancy` is that sum rounded to 2
decimals. -/
theorem C3_severity_from_unrounded_sum :
    ∀ (rows : List OrderRow) (s : CustomerStat), s ∈ computeCustomerStats rows →
      ∃ a, a ∈ rows.foldl insertRow [] ∧ s = finalize a ∧
        s.totalDiscrepancy = round2 a.totalDiscrepancy ∧
        (s.severity = Severity.red ↔ 500 ≤ |a.totalDiscrepancy|) ∧
        (s.severity = Severity.yellow ↔
          50 ≤ |a.totalDiscrepancy| ∧ |a.totalDiscrepancy| < 500) ∧
        (s.severity = Severity.green ↔ |a.totalDiscrepancy| < 50) := by
  intro rows s hs
  have hmem : s ∈ (rows.foldl insertRow []).map finalize := by
    simpa [computeCustomerStats] using hs
  obtain ⟨a, ha, rfl⟩ := List.mem_map.mp hmem
  exact ⟨a, ha, rfl, rfl, severityOf_red_iff a.totalDiscrepancy,
    severityOf_yellow_iff a.totalDiscrepancy, severityOf_green_iff a.totalDiscrepancy⟩

/-- C3 witness at a concrete red-tier row. -/
theorem C3_severity_witness :
    (finalize (accRow redRow (emptyAcc "ACME"))).severity = Severity.red := by
  have hfold : List.foldl insertRow [] [redRow] = [accRow redRow (emptyAcc "ACME")] := by
    simp [insertRow, customerOf, redRow, mkRow]
  have hm : finalize (accRow redRow (emptyAcc "ACME")) ∈ computeCustomerStats [redRow] := by
    simp [computeCustomerStats, insertRow, customerOf, redRow, mkRow,
      List.insertionSort, List.orderedInsert]
  obtain ⟨a, ha, heq, _, hred, _, _⟩ := C3_severity_from_unrounded_sum [redRow] _ hm
  rw [hfold] at ha
  have ha2 : a = accRow redRow (emptyAcc "ACME") := by simpa using ha
  subst ha2
  refine hred.mpr ?_
  have htd : (accRow redRow (emptyAcc "ACME")).totalDiscrepancy = 600 := by
    simp [accRow, redRow, mkRow, emptyAcc, parseNum, parseFloatQCore, digitsVal]
    norm_num
  rw [htd, abs_of_nonneg (by norm_num : (0 : ℚ) ≤ 600)]
  norm_num

/-! ### C6: a failed source fetch leaves the snapshot untouched -/

/-- C6: when the upstream query rejects, `refreshData` leaves the cached
rows, the last-fetched timestamp and `lastCriticalCount` exactly as they
were, emits nothing, and does not propagate the failure (the catch only
logs). -/
theorem C6_refresh_failure_preserves :
    ∀ (s : DbState) (t : ℕ) (notifyOk : Bool),
      refreshData s (Except.error ()) t notifyOk =
        { state := s, alerted := false, threw := false } := by
  intro s t notifyOk
  rfl

/-! ### C7: queries and the snapshot state -/

/-- C7 counterexample: `getStats` against the empty snapshot triggers the
lazy refresh and mutates the module state. -/
theorem C7_counterexample :
    (getStatsDB initialDbState (Except.ok [rowA]) 0 true none none).1 ≠ initialDbState := by
  have h1 : (getStatsDB initialDbState (Except.ok [rowA]) 0 true none none).1.lastFetched =
      some 0 := by
    simp only [getStatsDB, lazyRefresh, refreshData, initialDbState]
    norm_num
    split_ifs <;> rfl
  intro h
  rw [h] at h1
  simp [initialDbState] at h1

/-- C7 (amended): whenever the snapshot is non-empty, all four
database-backed queries leave the module state unchanged; only a query
against the empty snapshot can mutate it (through the lazy refresh). -/
theorem C7_queries_preserve_nonempty_state :
    ∀ (s : DbState) (fetched : Except Unit (List OrderRow)) (t : ℕ) (notifyOk : Bool)
      (frOpt toOpt : Option String) (customer : String), s.cachedRows ≠ [] →
      (getStatsDB s fetched t notifyOk frOpt toOpt).1 = s ∧
      (getCustomersDB s fetched t notifyOk frOpt toOpt).1 = s ∧
      (getOrdersByCustomerDB s fetched t notifyOk customer frOpt toOpt).1 = s ∧
      (chatDB s fetched t notifyOk frOpt toOpt).1 = s := by
  intro s fetched t notifyOk frOpt toOpt customer h
  have hl : lazyRefresh s fetched t notifyOk = s := by
    unfold lazyRefresh
    rw [if_neg]
    simp [List.isEmpty_iff, h]
  exact ⟨by simp [getStatsDB, hl], by simp [getCustomersDB, hl],
    by simp [getOrdersByCustomerDB, hl], by simp [chatDB, hl]⟩

/-- C7 witness at a one-row snapshot. -/
theorem C7_preserve_witness :
    (getStatsDB { cachedRows := [rowA], lastFetched := none, lastCriticalCount := 0 }
      (Except.ok []) 0 true none none).1 =
      { cachedRows := [rowA], lastFetched := none, lastCriticalCount := 0 } := by
  have h := C7_queries_preserve_nonempty_state
    { cachedRows := [rowA], lastFetched := none, lastCriticalCount := 0 }
    (Except.ok []) 0 true none none "X" (by simp)
  exact h.1

/-! ### C10: client-pre-aggregated getStats after upload -/

/-- C10: after a client-pre-aggregated upload, an unfiltered `getStats`
reports `totalOrders` as the caller-supplied `totalRows` (not the stored
order list's length) and `hasData` exactly when the supplied stats list is
non-empty — for any prior state, any supplied orders and any sink
behaviour. -/
theorem C10_preaggregated_getStats :
    ∀ (s : ClientState) (stats : List CustomerStat) (orders : List FlatOrder)
      (totalRows : ℕ) (filename : Option String) (t : ℕ) (notifyOk : Bool),
      (getStatsClient (uploadCSVClient s stats orders totalRows filename t notifyOk).state
          none none).totalOrders = totalRows ∧
      ((getStatsClient (uploadCSVClient s stats orders totalRows filename t notifyOk).state
          none none).hasData = true ↔ stats ≠ []) := by
  intro s stats orders totalRows filename t notifyOk
  have hstats :
      (uploadCSVClient s stats orders totalRows filename t notifyOk).state.cachedStats =
        stats := by
    unfold uploadCSVClient
    dsimp only
    split_ifs <;> rfl
  have hcount :
      (uploadCSVClient s stats orders totalRows filename t notifyOk).state.totalOrderCount =
        totalRows := by
    unfold uploadCSVClient
    dsimp only
    split_ifs <;> rfl
  constructor
  · simp [getStatsClient, jsTruthy, hcount]
  · simp [getStatsClient, jsTruthy, hstats, List.length_pos]

/-! ### Evaluation of the red-customer CSV sample -/

theorem parseCSV_redCsv : parseCSV redCsv = [redCsvRow] := by decide

theorem redCount_parseCSV_redCsv :
    redCount (computeCustomerStats (parseCSV redCsv)) = 1 := by
  rw [parseCSV_redCsv]
  have hacc : accRow redCsvRow (emptyAcc "ACME") =
      { customer := "ACME"
        orders := 1
        totalSelling := 0
        totalBilled := 600
        totalDiscrepancy := 600
        overcharges := 1
        undercharges := 0
        matched := 0 } := by
    simp [accRow, redCsvRow, emptyAcc, parseNum, parseFloatQCore, digitsVal]
    norm_num
  have hcust : customerOf redCsvRow = "ACME" := by simp [customerOf, redCsvRow]
  have h50 : ¬ ((600 : ℚ) < 50) := by norm_num
  have h500 : ¬ ((600 : ℚ) < 500) := by norm_num
  simp [computeCustomerStats, insertRow, hcust, hacc, List.insertionSort,
    List.orderedInsert, redCount, finalize, severityOf, if_neg h50, if_neg h500]

/-- C10 witness: a concrete upload reporting 7 total rows from 0 stored
orders. -/
theorem C10_preaggregated_witness :
    (getStatsClient (uploadCSVClient initialClientState [redStat] [] 7 none 0 true).state
      none none).totalOrders = 7 := by
  exact (C10_preaggregated_getStats initialClientState [redStat] [] 7 none 0 true).1

/-! ### C4: the alert state machine -/

theorem stepOp_count_nonneg (s : CsvState) (op : SnapOp) :
    0 ≤ (stepOp s op).lastCriticalCount := by
  cases op with
  | load text fn t =>
    unfold stepOp loadCSVData
    dsimp only
    by_cases hc : (redCount (computeCustomerStats (parseCSV text)) : ℤ) >
        s.lastCriticalCount ∧ s.lastCriticalCount ≥ 0
    · rw [if_pos hc, if_pos rfl]
      simp
    · rw [if_neg hc]
      simp
  | clear => simp [stepOp, clearData]

theorem runOps_count_nonneg (ops : List SnapOp) : 0 ≤ (runOps ops).lastCriticalCount := by
  suffices h : ∀ (l : List SnapOp) (s : CsvState), 0 ≤ s.lastCriticalCount →
      0 ≤ (l.foldl stepOp s).lastCriticalCount by
    exact h ops initialCsvState (by simp [initialCsvState])
  intro l
  induction l with
  | nil => exact fun s h => h
  | cons op rest ih =>
    intro s h
    exact ih _ (stepOp_count_nonneg s op)

/-- C4: over any operation sequence from the empty snapshot (with the sink
available), a load alerts exactly when the red-customer count of the newly
loaded set strictly exceeds the stored `lastCriticalCount`; the load then
stores the new count unconditionally; a clear resets the stored count to 0,
so a subsequent load with any red customer alerts again.  The same alert
rule holds for the database-backed `refreshData`. -/
theorem C4_alert_state_machine :
    ∀ (ops : List SnapOp) (text : String) (fn : Option String) (t : ℕ),
      ((loadCSVData (runOps ops) text fn t true).alerted = true ↔
        (redCount (computeCustomerStats (parseCSV text)) : ℤ) >
          (runOps ops).lastCriticalCount) ∧
      (loadCSVData (runOps ops) text fn t true).state.lastCriticalCount =
        (redCount (computeCustomerStats (parseCSV text)) : ℤ) ∧
      (clearData (runOps ops)).lastCriticalCount = 0 ∧
      (0 < redCount (computeCustomerStats (parseCSV text)) →
        (loadCSVData (clearData (runOps ops)) text fn t true).alerted = true) ∧
      (∀ (d : DbState) (rows : List OrderRow), 0 ≤ d.lastCriticalCount →
        ((refreshData d (Except.ok rows) t true).alerted = true ↔
          (redCount (computeCustomerStats rows) : ℤ) > d.lastCriticalCount)) := by
  intro ops text fn t
  have hnn := runOps_count_nonneg ops
  refine ⟨?_, ?_, rfl, ?_, ?_⟩
  · constructor
    · intro ha
      by_contra hc
      unfold loadCSVData at ha
      dsimp only at ha
      rw [if_neg (fun hcon => hc hcon.1)] at ha
      exact absurd ha (by simp)
    · intro hgt
      unfold loadCSVData
      dsimp only
      rw [if_pos ⟨hgt, hnn⟩, if_pos rfl]
  · unfold loadCSVData
    dsimp only
    by_cases hc : (redCount (computeCustomerStats (parseCSV text)) : ℤ) >
        (runOps ops).lastCriticalCount ∧ (runOps ops).lastCriticalCount ≥ 0
    · rw [if_pos hc, if_pos rfl]
    · rw [if_neg hc]
  · intro hpos
    unfold loadCSVData clearData
    dsimp only
    rw [if_pos ⟨by exact_mod_cast hpos, le_refl 0⟩, if_pos rfl]
  · intro d rows hd
    constructor
    · intro ha
      by_contra hc
      unfold refreshData at ha
      dsimp only at ha
      rw [if_neg (fun hcon => hc hcon.1)] at ha
      exact absurd ha (by simp)
    · intro hgt
      unfold refreshData
      dsimp only
      rw [if_pos ⟨hgt, hd⟩, if_pos rfl]

/-- C4 witness: from the empty snapshot, loading a CSV with one red
customer fires the alert. -/
theorem C4_alert_witness :
    (loadCSVData (runOps []) redCsv none 0 true).alerted = true := by
  have h := C4_alert_state_machine [] redCsv none 0
  refine h.1.mpr ?_
  have h0 : (runOps []).lastCriticalCount = 0 := rfl
  rw [h0, redCount_parseCSV_redCsv]
  norm_num

/-! ### C9: notification-sink failure during a load -/

/-- C9 (code bug): with one red customer and a failing notification sink,
`loadCSVData` replaces the cache, timestamp and filename, then propagates
the sink's rejection to its caller and leaves `lastCriticalCount` at its
old value 0 instead of the new count 1 — and `uploadCSV` of the
client-pre-aggregated variant behaves the same way. -/
theorem C9_notify_failure_breaks_load :
    (loadCSVData initialCsvState redCsv (some "x.csv") 5 false).threw = true ∧
    (loadCSVData initialCsvState redCsv (some "x.csv") 5 false).state.lastCriticalCount = 0 ∧
    (loadCSVData initialCsvState redCsv (some "x.csv") 5 false).state.cachedRows =
      parseCSV redCsv ∧
    (loadCSVData initialCsvState redCsv (some "x.csv") 5 false).state.lastFetched = some 5 ∧
    (loadCSVData initialCsvState redCsv (some "x.csv") 5 false).state.csvFilename =
      some "x.csv" ∧
    redCount (computeCustomerStats (parseCSV redCsv)) = 1 ∧
    (uploadCSVClient initialClientState [redStat] [] 1 none 5 false).threw = true ∧
    (uploadCSVClient initialClientState [redStat] [] 1 none 5 false).state.lastCriticalCount =
      0 := by
  have hcond : (redCount (computeCustomerStats (parseCSV redCsv)) : ℤ) >
      initialCsvState.lastCriticalCount ∧ initialCsvState.lastCriticalCount ≥ 0 := by
    rw [redCount_parseCSV_redCsv]
    simp [initialCsvState]
  have hload :
      loadCSVData initialCsvState redCsv (some "x.csv") 5 false =
        { state :=
            { cachedRows := parseCSV redCsv
              lastFetched := some 5
              csvFilename := some "x.csv"
              lastCriticalCount := initialCsvState.lastCriticalCount }
          alerted := false
          threw := true } := by
    unfold loadCSVData
    dsimp only
    rw [if_pos hcond, if_neg (by simp)]
    rfl
  have hcondU : (redCount [redStat] : ℤ) > initialClientState.lastCriticalCount ∧
      initialClientState.lastCriticalCount ≥ 0 := by
    simp [redCount, redStat, initialClientState]
  have hupload :
      uploadCSVClient initialClientState [redStat] [] 1 none 5 false =
        { state :=
            { cachedStats := [redStat]
              cachedOrders := []
              lastFetched := some 5
              lastCriticalCount := initialClientState.lastCriticalCount
              csvFilename := some "uploaded.csv"
              totalOrderCount := 1 }
          alerted := false
          threw := true } := by
    unfold uploadCSVClient
    dsimp only
    rw [if_pos hcondU, if_neg (by simp)]
    rfl
  refine ⟨?_, ?_, ?_, ?_, ?_, redCount_parseCSV_redCsv, ?_, ?_⟩
  · rw [hload]
  · rw [hload]
    rfl
  · rw [hload]
  · rw [hload]
  · rw [hload]
  · rw [hupload]
  · rw [hupload]
    rfl

/-! ### C5: the date-range filter -/

/-- C5 counterexample: in the client-pre-aggregated variant the inline date
filter has no empty-date exemption, so a record with an empty date is
dropped whenever `from` is a non-empty bound. -/
theorem C5_counterexample :
    emptyDateOrder.date = "" ∧
    emptyDateOrder ∉ filterOrdersByDate [emptyDateOrder] (some "2025-01-01") none := by
  constructor
  · rfl
  · decide

/-- C5 (amended): the server variants' `filterByDateRange` lets every
empty-date record through and otherwise compares the first 10 characters
inclusively against each truthy bound; the client-pre-aggregated variant's
filter instead compares the FULL date string and has no empty-date
exemption. -/
theorem C5_date_filter_characterization :
    (∀ (rows : List OrderRow) (frOpt toOpt : Option String) (r : OrderRow),
      (jsTruthy frOpt = true ∨ jsTruthy toOpt = true) →
      (r ∈ filterByDateRange rows frOpt toOpt ↔
        r ∈ rows ∧ (r.originPickupDate = "" ∨
          ((jsTruthy frOpt = true →
              strLe (frOpt.getD "") (strTake r.originPickupDate 10) = true) ∧
           (jsTruthy toOpt = true →
              strLe (strTake r.originPickupDate 10) (toOpt.getD "") = true))))) ∧
    (∀ (orders : List FlatOrder) (frOpt toOpt : Option String) (o : FlatOrder),
      o ∈ filterOrdersByDate orders frOpt toOpt ↔
        o ∈ orders ∧
          (jsTruthy frOpt = true → strLe (frOpt.getD "") o.date = true) ∧
          (jsTruthy toOpt = true → strLe o.date (toOpt.getD "") = true)) := by
  constructor
  · intro rows frOpt toOpt r hb
    rw [filterByDateRange, if_neg (by tauto), List.mem_filter]
    refine and_congr_right fun _ => ?_
    unfold datePasses
    dsimp only
    split_ifs with h1 h2 h3
    · exact iff_of_true rfl (Or.inl h1)
    · refine iff_of_false (by simp) ?_
      rintro (hd | ⟨hf, _⟩)
      · exact h1 hd
      · have := hf h2.1
        rw [strLe, h2.2] at this
        exact absurd this (by simp)
    · refine iff_of_false (by simp) ?_
      rintro (hd | ⟨_, ht⟩)
      · exact h1 hd
      · have := ht h3.1
        rw [strLe, h3.2] at this
        exact absurd this (by simp)
    · refine iff_of_true rfl (Or.inr ⟨?_, ?_⟩)
      · intro hf
        rw [strLe]
        rcases hlt : strLt (strTake r.originPickupDate 10) (frOpt.getD "") with _ | _
        · rfl
        · exact absurd ⟨hf, hlt⟩ h2
      · intro ht
        rw [strLe]
        rcases hlt : strLt (toOpt.getD "") (strTake r.originPickupDate 10) with _ | _
        · rfl
        · exact absurd ⟨ht, hlt⟩ h3
  · intro orders frOpt toOpt o
    rw [filterOrdersByDate, List.mem_filter]
    refine and_congr_right fun _ => ?_
    dsimp only
    split_ifs with h2 h3
    · refine iff_of_false (by simp) ?_
      rintro ⟨hf, _⟩
      have := hf h2.1
      rw [strLe, h2.2] at this
      exact absurd this (by simp)
    · refine iff_of_false (by simp) ?_
      rintro ⟨_, ht⟩
      have := ht h3.1
      rw [strLe, h3.2] at this
      exact absurd this (by simp)
    · refine iff_of_true rfl ⟨?_, ?_⟩
      · intro hf
        rw [strLe]
        rcases hlt : strLt o.date (frOpt.getD "") with _ | _
        · rfl
        · exact absurd ⟨hf, hlt⟩ h2
      · intro ht
        rw [strLe]
        rcases hlt : strLt (toOpt.getD "") o.date with _ | _
        · rfl
        · exact absurd ⟨ht, hlt⟩ h3

/-- C5 witness: a dated record inside the bounds passes the server filter. -/
theorem C5_filter_witness :
    rowA ∈ filterByDateRange [rowA] (some "2025-01-01") (some "2025-12-31") := by
  have h := (C5_date_filter_characterization.1 [rowA] (some "2025-01-01")
    (some "2025-12-31") rowA (Or.inl (by decide)))
  refine h.mpr ⟨by simp, Or.inr ⟨fun _ => by decide, fun _ => by decide⟩⟩

/-! ### C8: the CSV parser -/

theorem parseLineGo_step_inq (c : Char) (l cur : List Char) (acc : List (List Char))
    (hc : ¬ c = '"') :
    parseLineGo (c :: l) true cur acc = parseLineGo l true (c :: cur) acc := by
  cases l with
  | nil => simp [parseLineGo, hc]
  | cons e es => simp [parseLineGo, hc]

theorem parseLineGo_quotepair_inq (l cur : List Char) (acc : List (List Char)) :
    parseLineGo ('"' :: '"' :: l) true cur acc = parseLineGo l true ('"' :: cur) acc := by
  simp [parseLineGo]

theorem parseLineGo_openquote (l cur : List Char) (acc : List (List Char)) :
    parseLineGo ('"' :: l) false cur acc = parseLineGo l true cur acc := by
  cases l with
  | nil => simp [parseLineGo]
  | cons e es => simp [parseLineGo]

theorem parseLineGo_comma (l cur : List Char) (acc : List (List Char)) :
    parseLineGo (',' :: l) false cur acc = parseLineGo l false [] (acc ++ [cur.reverse]) := by
  cases l with
  | nil => simp [parseLineGo]
  | cons e es => simp [parseLineGo]

/-- Consuming an escaped field body inside quotes accumulates exactly the
unescaped characters. -/
theorem parseLineGo_escQuotes (f : List Char) :
    ∀ (rest cur : List Char) (acc : List (List Char)),
      parseLineGo (escQuotes f ++ rest) true cur acc =
        parseLineGo rest true (f.reverse ++ cur) acc := by
  induction f with
  | nil =>
    intro rest cur acc
    simp [escQuotes]
  | cons c cs ih =>
    intro rest cur acc
    by_cases hc : c = '"'
    · subst hc
      rw [show escQuotes ('"' :: cs) ++ rest = '"' :: '"' :: (escQuotes cs ++ rest) by
        simp [escQuotes]]
      rw [parseLineGo_quotepair_inq, ih]
      simp
    · rw [show escQuotes (c :: cs) ++ rest = c :: (escQuotes cs ++ rest) by
        simp [escQuotes, hc]]
      rw [parseLineGo_step_inq c _ _ _ hc, ih]
      simp

/-- The quoted encoding of a field list parses back to exactly those
fields: commas and newline-free content inside quotes are literal, doubled
quotes unescape. -/
theorem parseLineGo_encodeLine (fields : List (List Char)) :
    ∀ acc, fields ≠ [] → parseLineGo (encodeLine fields) false [] acc = acc ++ fields := by
  induction fields with
  | nil => exact fun acc h => absurd rfl h
  | cons f fs ih =>
    intro acc _
    cases fs with
    | nil =>
      rw [show encodeLine [f] = '"' :: (escQuotes f ++ ['"']) from rfl]
      rw [parseLineGo_openquote, parseLineGo_escQuotes]
      simp [parseLineGo]
    | cons f2 fs2 =>
      rw [show encodeLine (f :: f2 :: fs2) =
        '"' :: (escQuotes f ++ ('"' :: ',' :: encodeLine (f2 :: fs2))) by
          simp [encodeLine, encodeField]]
      rw [parseLineGo_openquote, parseLineGo_escQuotes]
      rw [show ('"' :: ',' :: encodeLine (f2 :: fs2) : List Char) =
        '"' :: (',' :: encodeLine (f2 :: fs2)) from rfl]
      have hclose : parseLineGo ('"' :: (',' :: encodeLine (f2 :: fs2))) true
          (f.reverse ++ []) acc =
          parseLineGo (',' :: encodeLine (f2 :: fs2)) false (f.reverse ++ []) acc := by
        simp [parseLineGo]
      rw [hclose, parseLineGo_comma, ih _ (by simp)]
      simp

/-- A `\r\n` pair after newline-free content delimits exactly like `\n`
does. -/
theorem splitLinesGo_crlf (a : List Char) :
    ∀ (b cur : List Char), '\r' ∉ a → '\n' ∉ a →
      splitLinesGo (a ++ '\r' :: '\n' :: b) cur =
        (cur.reverse ++ a) :: splitLinesGo b [] := by
  induction a with
  | nil =>
    intro b cur _ _
    simp [splitLinesGo]
  | cons c a' ih =>
    intro b cur hr hn
    have hc1 : ¬ c = '\r' := fun h => hr (by simp [h])
    have hc2 : ¬ c = '\n' := fun h => hn (by simp [h])
    rcases hE : a' ++ '\r' :: '\n' :: b with _ | ⟨e, es⟩
    · exact absurd hE (by simp)
    · rw [List.cons_append, hE]
      have hstep : splitLinesGo (c :: e :: es) cur = splitLinesGo (e :: es) (c :: cur) := by
        simp [splitLinesGo, hc1, hc2]
      rw [hstep, ← hE, ih b (c :: cur) (fun h => hr (by simp [h])) (fun h => hn (by simp [h]))]
      simp

/-- A bare `\n` after newline-free content delimits a line. -/
theorem splitLinesGo_lf (a : List Char) :
    ∀ (b cur : List Char), '\r' ∉ a → '\n' ∉ a →
      splitLinesGo (a ++ '\n' :: b) cur = (cur.reverse ++ a) :: splitLinesGo b [] := by
  induction a with
  | nil =>
    intro b cur _ _
    cases b with
    | nil => simp [splitLinesGo]
    | cons e es => simp [splitLinesGo]
  | cons c a' ih =>
    intro b cur hr hn
    have hc1 : ¬ c = '\r' := fun h => hr (by simp [h])
    have hc2 : ¬ c = '\n' := fun h => hn (by simp [h])
    rcases hE : a' ++ '\n' :: b with _ | ⟨e, es⟩
    · exact absurd hE (by simp)
    · rw [List.cons_append, hE]
      have hstep : splitLinesGo (c :: e :: es) cur = splitLinesGo (e :: es) (c :: cur) := by
        simp [splitLinesGo, hc1, hc2]
      rw [hstep, ← hE, ih b (c :: cur) (fun h => hr (by simp [h])) (fun h => hn (by simp [h]))]
      simp

theorem buildRow_nil_values (hs : List String) :
    ∀ p ∈ buildRow hs [], p.2 = "" := by
  induction hs with
  | nil => simp [buildRow]
  | cons h t ih =>
    intro p hp
    simp only [buildRow, List.mem_cons] at hp
    rcases hp with hp | hp
    · simp [hp]
    · exact ih p hp

/-- Headers beyond the supplied values are filled with the empty string. -/
theorem buildRow_padding (values : List String) :
    ∀ (headers : List String) (p : String × String),
      p ∈ (buildRow headers values).drop values.length → p.2 = "" := by
  induction values with
  | nil =>
    intro headers p hp
    exact buildRow_nil_values headers p (by simpa using hp)
  | cons v vs ih =>
    intro headers p hp
    cases headers with
    | nil => simp [buildRow] at hp
    | cons h hs =>
      simp only [buildRow, List.length_cons, List.drop_succ_cons] at hp
      exact ih hs p hp

theorem parseCSVRows_no_allempty (text : String) :
    ∀ r ∈ parseCSVRows text, r.any (fun kv => decide (kv.2 ≠ "")) = true := by
  intro r hr
  unfold parseCSVRows at hr
  rcases hl : (splitLinesGo text.data []).filter jsTrimNonempty with _ | ⟨l0, ls⟩
  · rw [hl] at hr
    simp at hr
  · rw [hl] at hr
    cases ls with
    | nil => simp at hr
    | cons l1 ls2 => exact (List.mem_filter.mp hr).2

/-- C8 counterexample: a newline inside a quoted field is treated as a
record separator — `parseCSV` yields two mangled rows instead of one row
whose first field contains the newline. -/
theorem C8_counterexample :
    parseCSVRows nlCsv = [[("h1", "x"), ("h2", "")], [("h1", "y,2"), ("h2", "")]] ∧
    parseCSVRows nlCsv ≠ [[("h1", "x\ny"), ("h2", "2")]] := by
  constructor
  · decide
  · decide

/-- C8 (amended): the quoted encoding of any newline-free fields parses
back exactly (commas literal inside quotes, doubled quotes unescaped);
`\n` and `\r\n` both delimit records identically; a data row shorter than
the header is padded with empty strings; rows whose values are all empty
are dropped.  Embedded newlines in quoted fields are NOT supported: the
text is split on line endings before quote processing. -/
theorem C8_csv_parser_characterization :
    (∀ fields : List (List Char), fields ≠ [] →
      parseLineGo (encodeLine fields) false [] [] = fields) ∧
    (∀ (a b : List Char), '\r' ∉ a → '\n' ∉ a →
      splitLinesGo (a ++ '\r' :: '\n' :: b) [] = a :: splitLinesGo b [] ∧
      splitLinesGo (a ++ '\n' :: b) [] = a :: splitLinesGo b []) ∧
    (∀ (headers values : List String) (p : String × String),
      p ∈ (buildRow headers values).drop values.length → p.2 = "") ∧
    (∀ (text : String) (r : List (String × String)), r ∈ parseCSVRows text →
      r.any (fun kv => decide (kv.2 ≠ "")) = true) := by
  refine ⟨?_, ?_, ?_, parseCSVRows_no_allempty⟩
  · intro fields h
    simpa using parseLineGo_encodeLine fields [] h
  · intro a b hr hn
    constructor
    · simpa using splitLinesGo_crlf a b [] hr hn
    · simpa using splitLinesGo_lf a b [] hr hn
  · exact fun headers values p hp => buildRow_padding values headers p hp

/-- C8 witness at concrete fields, lines, and rows. -/
theorem C8_parser_witness :
    parseLineGo (encodeLine [['a'], ['b', ',', 'c']]) false [] [] =
      [['a'], ['b', ',', 'c']] ∧
    splitLinesGo (['x'] ++ '\r' :: '\n' :: ['y']) [] = ['x'] :: splitLinesGo ['y'] [] ∧
    (("h2", "") : String × String).2 = "" ∧
    ([("h1", "x"), ("h2", "")] : List (String × String)).any
      (fun kv => decide (kv.2 ≠ "")) = true := by
  refine ⟨C8_csv_parser_characterization.1 [['a'], ['b', ',', 'c']] (by simp),
    (C8_csv_parser_characterization.2.1 ['x'] ['y'] (by decide) (by decide)).1,
    C8_csv_parser_characterization.2.2.1 ["h1", "h2"] ["v"] ("h2", "") (by decide),
    C8_csv_parser_characterization.2.2.2 nlCsv [("h1", "x"), ("h2", "")] (by decide)⟩

end Lazr
